import Mathlib

/-!
Verification of the ESP firmware image decoder
(`src/espflash/src/esp_firmware_image.rs`).

The decoder interprets a borrowed byte buffer as a fixed-size image header
followed by `segment_count` variable-length code segments.  We embed the
buffer as a `List Nat` of byte values.  Rust slice indexing
(`&data[a..b]`) panics when the range is out of bounds; we model a panic
as `none` of an `Option`, and a successful slice as `some` of the selected
bytes.  Rust `usize` arithmetic is modelled as 64-bit: every sum that the
source computes in `usize` is reduced modulo `2 ^ 64` (`wrap64`), matching
release-mode wrapping semantics on a 64-bit target.

The struct definitions `ImageHeader`, `SegmentHeader` and `CodeSegment`
live in crate modules that are not part of the visible source; they are
modelled from the spec where so marked.
-/

/-- Modelled from the spec: `SegmentHeader` (crate::image_format, not in the
visible source) is `address: u32` at offset 0 and `length: u32` at offset 4,
both little-endian, so `size_of::<SegmentHeader>() = 8`. -/
def SEGMENT_HEADER_SIZE : Nat := 8

/-- Modelled from the spec: the image header is a fixed-size block; the spec
leaves the exact byte size opaque beyond fixing it as a compile-time
constant.  We fix `size_of::<ImageHeader>() = 24` (the ESP application
image header size). -/
def HEADER_SIZE : Nat := 24

/-- Modelled from the spec: byte offset of the one-byte `segment_count`
field inside the header (the spec calls it a header-defined offset). -/
def SEGMENT_COUNT_OFFSET : Nat := 4

/-- Modulus of Rust `usize` arithmetic on a 64-bit target. -/
def USIZE_MOD : Nat := 2 ^ 64

/-- Reduce a sum modulo `2 ^ 64`, as Rust `usize` addition does on a
64-bit target when overflow checks are off. -/
def wrap64 (n : Nat) : Nat := n % USIZE_MOD

/-- Decode the little-endian `u32` stored at byte offset `off`.
Out-of-range bytes default to `0`; `% 256` keeps each list entry a byte. -/
def readU32LE (data : List Nat) (off : Nat) : Nat :=
  data.getD off 0 % 256
    + (data.getD (off + 1) 0 % 256) * 256
    + (data.getD (off + 2) 0 % 256) * 65536
    + (data.getD (off + 3) 0 % 256) * 16777216

/-- The bytes `data[a .. a + n)` of the buffer (shorter if the buffer
ends), as a list. -/
def extract (data : List Nat) (a n : Nat) : List Nat :=
  (data.drop a).take n

/-- Rust slice indexing `&data[a..b]`: `some` of the selected bytes when
the range is in bounds, `none` (panic) otherwise. -/
def sliceRange (data : List Nat) (a b : Nat) : Option (List Nat) :=
  if a ≤ b ∧ b ≤ data.length then some ((data.drop a).take (b - a)) else none

/-- Modelled from the spec: the decoded image header fields used by the
decoder — `entry` is the little-endian u32 at offset 0, `segment_count`
the byte at `SEGMENT_COUNT_OFFSET`. -/
structure ImageHeader where
  entry : Nat
  segment_count : Nat
deriving DecidableEq

/-- Modelled from the spec: `bytemuck::from_bytes::<ImageHeader>` applied
to the header bytes. -/
def decodeImageHeader (bytes : List Nat) : ImageHeader :=
  { entry := readU32LE bytes 0
    segment_count := bytes.getD SEGMENT_COUNT_OFFSET 0 % 256 }

/-- Modelled from the spec: the decoded segment record header. -/
structure SegmentHeader where
  addr : Nat
  length : Nat
deriving DecidableEq

/-- Modelled from the spec: `bytemuck::from_bytes::<SegmentHeader>`
applied to the 8 record-header bytes. -/
def decodeSegmentHeader (bytes : List Nat) : SegmentHeader :=
  { addr := readU32LE bytes 0
    length := readU32LE bytes 4 }

/-- Modelled from the spec: `CodeSegment` (crate::elf, not in the visible
source) is a load address together with a borrowed byte slice; we carry
the slice's bytes. -/
structure CodeSegment where
  addr : Nat
  data : List Nat
deriving DecidableEq

/-- Modelled from the spec: `CodeSegment::new(addr, data)`. -/
def CodeSegment.new (addr : Nat) (data : List Nat) : CodeSegment :=
  { addr := addr, data := data }

/-- `EspFirmwareImage` from the source: a borrowed view of the raw image
bytes. -/
structure EspFirmwareImage where
  image_data : List Nat
deriving DecidableEq

/-- `EspFirmwareImage::new`: stores the buffer; the source performs no
validation (`// TODO: Validate`). -/
def EspFirmwareImage.new (image_data : List Nat) : EspFirmwareImage :=
  { image_data := image_data }

/-- `SectionIter` from the source: the buffer, the cursor `pos` and the
`remaining` segment count. -/
structure SectionIter where
  data : List Nat
  pos : Nat
  remaining : Nat
deriving DecidableEq

/-- The cursor update of `SectionIter::next` (source line 34):
`self.pos + segment.length as usize + size_of::<SegmentHeader>()`, a
`usize` sum. -/
def advanceCursor (pos len : Nat) : Nat :=
  wrap64 (pos + len + SEGMENT_HEADER_SIZE)

/-- `SectionIter::next`.  Returns `none` when the Rust code would panic
(an out-of-bounds slice), and otherwise `some (yielded item, next
state)`.  The source decrements `remaining`, reads the 8-byte segment
header at `pos`, slices the payload of the declared length, yields the
segment and advances the cursor. -/
def SectionIter.next (it : SectionIter) : Option (Option CodeSegment × SectionIter) :=
  if 0 < it.remaining then
    match sliceRange it.data it.pos (wrap64 (it.pos + SEGMENT_HEADER_SIZE)) with
    | none => none
    | some hdrBytes =>
      match sliceRange it.data (wrap64 (it.pos + SEGMENT_HEADER_SIZE))
          (wrap64 (it.pos + SEGMENT_HEADER_SIZE + (decodeSegmentHeader hdrBytes).length)) with
      | none => none
      | some payload =>
        some (some (CodeSegment.new (decodeSegmentHeader hdrBytes).addr payload),
          { data := it.data
            pos := advanceCursor it.pos (decodeSegmentHeader hdrBytes).length
            remaining := it.remaining - 1 })
  else
    some (none, it)

/-- `FirmwareImage::entry` for `EspFirmwareImage`: decode the header from
the first `size_of::<ImageHeader>()` bytes and return its entry field.
`none` models the panic on a short buffer. -/
def EspFirmwareImage.entry (img : EspFirmwareImage) : Option Nat :=
  match sliceRange img.image_data 0 HEADER_SIZE with
  | none => none
  | some hdrBytes => some (decodeImageHeader hdrBytes).entry

/-- `FirmwareImage::segments` for `EspFirmwareImage`: decode the header
and build a fresh `SectionIter` starting right after it.  `none` models
the panic on a short buffer. -/
def EspFirmwareImage.segments (img : EspFirmwareImage) : Option SectionIter :=
  match sliceRange img.image_data 0 HEADER_SIZE with
  | none => none
  | some hdrBytes =>
    some { data := img.image_data
           pos := HEADER_SIZE
           remaining := (decodeImageHeader hdrBytes).segment_count }

/-- Drive a `SectionIter` to exhaustion, fuelled: collect the yielded
segments and the final iterator state.  `none` when an advance panics or
the fuel runs out before the stream reports exhaustion. -/
def SectionIter.runAll : Nat → SectionIter → Option (List CodeSegment × SectionIter)
  | 0, it =>
    match it.next with
    | none => none
    | some (none, it2) => some ([], it2)
    | some (some _, _) => none
  | fuel + 1, it =>
    match it.next with
    | none => none
    | some (none, it2) => some ([], it2)
    | some (some seg, it2) =>
      (SectionIter.runAll fuel it2).map (fun r => (seg :: r.1, r.2))

/-- All segments yielded by the stream, fuelled by its own `remaining`
count (which bounds the number of yields). -/
def SectionIter.collect (it : SectionIter) : Option (List CodeSegment) :=
  (SectionIter.runAll it.remaining it).map Prod.fst

/-- Declared payload length of the record starting at `pos`. -/
def segLen (data : List Nat) (pos : Nat) : Nat :=
  readU32LE data (pos + 4)

/-- The `segment_count` byte of the image header. -/
def imageSegCount (data : List Nat) : Nat :=
  data.getD SEGMENT_COUNT_OFFSET 0 % 256

/-- Specification-level record list: the `k` records laid out back to
back from `pos`, each an address plus a payload of its declared length,
in the order they appear in the buffer. -/
def specSegs (data : List Nat) : Nat → Nat → List CodeSegment
  | 0, _ => []
  | k + 1, pos =>
    CodeSegment.new (readU32LE data pos)
        (extract data (pos + SEGMENT_HEADER_SIZE) (segLen data pos))
      :: specSegs data k (pos + SEGMENT_HEADER_SIZE + segLen data pos)

/-- Cursor position after the `k` records starting at `pos`. -/
def endPos (data : List Nat) : Nat → Nat → Nat
  | 0, pos => pos
  | k + 1, pos => endPos data k (pos + SEGMENT_HEADER_SIZE + segLen data pos)

/-- Every one of the `k` records starting at `pos` lies entirely inside
the buffer. -/
def recordsOkB (data : List Nat) : Nat → Nat → Bool
  | 0, _ => true
  | k + 1, pos =>
    decide (pos + SEGMENT_HEADER_SIZE + segLen data pos ≤ data.length) &&
      recordsOkB data k (pos + SEGMENT_HEADER_SIZE + segLen data pos)

/-- Well-formed image: the header fits, the buffer is a representable
Rust slice (length below `isize::MAX`), and all declared records lie
inside the buffer. -/
def WellFormedB (data : List Nat) : Bool :=
  decide (HEADER_SIZE ≤ data.length) && decide (data.length < 2 ^ 63) &&
    recordsOkB data (imageSegCount data) HEADER_SIZE

/-- The spec's concrete scenario: header (entry `0x40080000`, two
segments), a 4-byte segment at `0x3FFB0000` and a 2-byte segment at
`0x40080000`. -/
def exampleBuf : List Nat :=
  [0x00, 0x00, 0x08, 0x40, 0x02, 0, 0, 0, 0, 0, 0, 0,
   0, 0, 0, 0, 0, 0, 0, 0, 0, 0, 0, 0] ++
  [0x00, 0x00, 0xFB, 0x3F, 0x04, 0x00, 0x00, 0x00, 0x01, 0x02, 0x03, 0x04] ++
  [0x00, 0x00, 0x08, 0x40, 0x02, 0x00, 0x00, 0x00, 0xAA, 0xBB]

/-- The same scenario truncated by its final byte, so the second
segment's payload extends past the end of the buffer. -/
def exampleBufTrunc : List Nat := exampleBuf.dropLast

/-! ### Basic byte-access lemmas -/

theorem getD_drop (data : List Nat) : ∀ (a i : Nat), (data.drop a).getD i 0 = data.getD (a + i) 0 := by
  induction data with
  | nil => intro a i; cases a <;> simp [List.getD]
  | cons x xs ih =>
    intro a i
    cases a with
    | zero => simp
    | succ a =>
      have h := ih a i
      simp only [List.drop, Nat.succ_add] at h ⊢
      simp [h]

theorem getD_take (data : List Nat) : ∀ (n i : Nat), i < n → (data.take n).getD i 0 = data.getD i 0 := by
  induction data with
  | nil => intro n i _; simp
  | cons x xs ih =>
    intro n i hi
    cases n with
    | zero => omega
    | succ n =>
      cases i with
      | zero => simp
      | succ i => simpa using ih n i (by omega)

theorem extract_getD (data : List Nat) (a n i : Nat) (hi : i < n) :
    (extract data a n).getD i 0 = data.getD (a + i) 0 := by
  unfold extract
  rw [getD_take _ n i hi, getD_drop]

theorem extract_length (data : List Nat) (a n : Nat) (h : a + n ≤ data.length) :
    (extract data a n).length = n := by
  unfold extract
  rw [List.length_take, List.length_drop]
  omega

theorem readU32LE_lt (data : List Nat) (off : Nat) : readU32LE data off < 2 ^ 32 := by
  unfold readU32LE
  have h0 : data.getD off 0 % 256 < 256 := Nat.mod_lt _ (by norm_num)
  have h1 : data.getD (off + 1) 0 % 256 < 256 := Nat.mod_lt _ (by norm_num)
  have h2 : data.getD (off + 2) 0 % 256 < 256 := Nat.mod_lt _ (by norm_num)
  have h3 : data.getD (off + 3) 0 % 256 < 256 := Nat.mod_lt _ (by norm_num)
  have : (2 : Nat) ^ 32 = 4294967296 := by norm_num
  omega

theorem readU32LE_extract (data : List Nat) (a n i : Nat) (h : i + 4 ≤ n) :
    readU32LE (extract data a n) i = readU32LE data (a + i) := by
  have e1 : a + (i + 1) = a + i + 1 := by omega
  have e2 : a + (i + 2) = a + i + 2 := by omega
  have e3 : a + (i + 3) = a + i + 3 := by omega
  unfold readU32LE
  rw [extract_getD data a n i (by omega), extract_getD data a n (i + 1) (by omega),
    extract_getD data a n (i + 2) (by omega), extract_getD data a n (i + 3) (by omega),
    e1, e2, e3]

theorem wrap64_eq_of_lt {n : Nat} (h : n < USIZE_MOD) : wrap64 n = n :=
  Nat.mod_eq_of_lt h

theorem pow63_lt_usize_mod : (2 : Nat) ^ 63 + 2 ^ 32 + SEGMENT_HEADER_SIZE < USIZE_MOD := by
  norm_num [SEGMENT_HEADER_SIZE, USIZE_MOD]

theorem sliceRange_eq_extract (data : List Nat) (a b : Nat) (hab : a ≤ b)
    (hb : b ≤ data.length) : sliceRange data a b = some (extract data a (b - a)) := by
  unfold sliceRange extract
  rw [if_pos ⟨hab, hb⟩]

theorem sliceRange_eq_none (data : List Nat) (a b : Nat)
    (h : ¬(a ≤ b ∧ b ≤ data.length)) : sliceRange data a b = none := by
  unfold sliceRange
  rw [if_neg h]

theorem decodeSegmentHeader_extract (data : List Nat) (pos : Nat) :
    decodeSegmentHeader (extract data pos SEGMENT_HEADER_SIZE) =
      { addr := readU32LE data pos, length := segLen data pos } := by
  unfold decodeSegmentHeader segLen
  rw [readU32LE_extract data pos SEGMENT_HEADER_SIZE 0 (by norm_num [SEGMENT_HEADER_SIZE]),
    readU32LE_extract data pos SEGMENT_HEADER_SIZE 4 (by norm_num [SEGMENT_HEADER_SIZE])]
  simp

/-! ### The stream advance on an in-bounds record -/

theorem next_step_eq (data : List Nat) (pos r : Nat) (hr : 0 < r)
    (hlen : data.length < 2 ^ 63)
    (hb : pos + SEGMENT_HEADER_SIZE + segLen data pos ≤ data.length) :
    SectionIter.next ⟨data, pos, r⟩ =
      some (some (CodeSegment.new (readU32LE data pos)
          (extract data (pos + SEGMENT_HEADER_SIZE) (segLen data pos))),
        ⟨data, pos + SEGMENT_HEADER_SIZE + segLen data pos, r - 1⟩) := by
  have hpow := pow63_lt_usize_mod
  have hL : segLen data pos < 2 ^ 32 := readU32LE_lt data (pos + 4)
  have hw1 : wrap64 (pos + SEGMENT_HEADER_SIZE) = pos + SEGMENT_HEADER_SIZE :=
    wrap64_eq_of_lt (by omega)
  have hw2 : wrap64 (pos + SEGMENT_HEADER_SIZE + segLen data pos) =
      pos + SEGMENT_HEADER_SIZE + segLen data pos :=
    wrap64_eq_of_lt (by omega)
  have e1 : pos + SEGMENT_HEADER_SIZE - pos = SEGMENT_HEADER_SIZE := by omega
  have h1 : sliceRange data pos (wrap64 (pos + SEGMENT_HEADER_SIZE)) =
      some (extract data pos SEGMENT_HEADER_SIZE) := by
    rw [hw1, sliceRange_eq_extract data pos (pos + SEGMENT_HEADER_SIZE) (by omega) (by omega), e1]
  have e2 : pos + SEGMENT_HEADER_SIZE + segLen data pos - (pos + SEGMENT_HEADER_SIZE) =
      segLen data pos := by omega
  have h2 : sliceRange data (wrap64 (pos + SEGMENT_HEADER_SIZE))
      (wrap64 (pos + SEGMENT_HEADER_SIZE + segLen data pos)) =
      some (extract data (pos + SEGMENT_HEADER_SIZE) (segLen data pos)) := by
    rw [hw1, hw2,
      sliceRange_eq_extract data (pos + SEGMENT_HEADER_SIZE)
        (pos + SEGMENT_HEADER_SIZE + segLen data pos) (by omega) (by omega), e2]
  have h3 : advanceCursor pos (segLen data pos) =
      pos + SEGMENT_HEADER_SIZE + segLen data pos := by
    unfold advanceCursor
    rw [wrap64_eq_of_lt (by omega)]
    omega
  unfold SectionIter.next
  simp only [decodeSegmentHeader_extract, h1, h2, h3, hr, if_pos]

/-! ### Running the stream over a well-formed record area -/

theorem runAll_eq_specSegs (data : List Nat) (hlen : data.length < 2 ^ 63) :
    ∀ k pos, recordsOkB data k pos = true →
      SectionIter.runAll k ⟨data, pos, k⟩ =
        some (specSegs data k pos, ⟨data, endPos data k pos, 0⟩) := by
  intro k
  induction k with
  | zero =>
    intro pos _
    unfold SectionIter.runAll SectionIter.next
    simp [specSegs, endPos]
  | succ k ih =>
    intro pos h
    unfold recordsOkB at h
    rw [Bool.and_eq_true, decide_eq_true_eq] at h
    obtain ⟨hb, hrest⟩ := h
    have hstep := next_step_eq data pos (k + 1) (by omega) hlen hb
    unfold SectionIter.runAll
    rw [hstep]
    simp only [Nat.add_sub_cancel]
    rw [ih _ hrest]
    simp [specSegs, endPos]

theorem specSegs_length (data : List Nat) : ∀ k pos, (specSegs data k pos).length = k := by
  intro k
  induction k with
  | zero => intro pos; rfl
  | succ k ih => intro pos; simp [specSegs, ih]

theorem endPos_eq_add_sum (data : List Nat) :
    ∀ k pos, recordsOkB data k pos = true →
      endPos data k pos =
        pos + ((specSegs data k pos).map (fun s => SEGMENT_HEADER_SIZE + s.data.length)).sum := by
  intro k
  induction k with
  | zero => intro pos _; simp [endPos, specSegs]
  | succ k ih =>
    intro pos h
    unfold recordsOkB at h
    rw [Bool.and_eq_true, decide_eq_true_eq] at h
    obtain ⟨hb, hrest⟩ := h
    have hdlen : (extract data (pos + SEGMENT_HEADER_SIZE) (segLen data pos)).length =
        segLen data pos :=
      extract_length data _ _ (by omega)
    unfold endPos specSegs
    rw [ih _ hrest]
    simp [CodeSegment.new, hdlen]
    omega

theorem wellFormedB_inv (buf : List Nat) (h : WellFormedB buf = true) :
    HEADER_SIZE ≤ buf.length ∧ buf.length < 2 ^ 63 ∧
      recordsOkB buf (imageSegCount buf) HEADER_SIZE = true := by
  unfold WellFormedB at h
  rw [Bool.and_eq_true, Bool.and_eq_true, decide_eq_true_eq, decide_eq_true_eq] at h
  exact ⟨h.1.1, h.1.2, h.2⟩

theorem segments_eq_of_header (buf : List Nat) (h : HEADER_SIZE ≤ buf.length) :
    (EspFirmwareImage.new buf).segments = some ⟨buf, HEADER_SIZE, imageSegCount buf⟩ := by
  unfold EspFirmwareImage.segments EspFirmwareImage.new
  rw [sliceRange_eq_extract buf 0 HEADER_SIZE (by omega) h]
  have hcount : (extract buf 0 HEADER_SIZE)[SEGMENT_COUNT_OFFSET]?.getD 0 =
      buf[SEGMENT_COUNT_OFFSET]?.getD 0 := by
    have := extract_getD buf 0 HEADER_SIZE SEGMENT_COUNT_OFFSET
      (by norm_num [SEGMENT_COUNT_OFFSET, HEADER_SIZE])
    simpa [List.getD_eq_getElem?_getD] using this
  simp [decodeImageHeader, imageSegCount, hcount]

/-! ### Inverting a successful advance -/

theorem next_some_inv (it : SectionIter) (seg : CodeSegment) (it2 : SectionIter)
    (hlen : it.data.length < 2 ^ 63) (hpos : it.pos ≤ it.data.length)
    (h : it.next = some (some seg, it2)) :
    0 < it.remaining ∧
      it.pos + SEGMENT_HEADER_SIZE + segLen it.data it.pos ≤ it.data.length ∧
      seg = CodeSegment.new (readU32LE it.data it.pos)
        (extract it.data (it.pos + SEGMENT_HEADER_SIZE) (segLen it.data it.pos)) ∧
      it2 = ⟨it.data, it.pos + SEGMENT_HEADER_SIZE + segLen it.data it.pos,
        it.remaining - 1⟩ := by
  obtain ⟨data, pos, r⟩ := it
  simp only at hlen hpos h ⊢
  have hpow := pow63_lt_usize_mod
  have hL : segLen data pos < 2 ^ 32 := readU32LE_lt data (pos + 4)
  by_cases hr : 0 < r
  · by_cases hpl : pos + SEGMENT_HEADER_SIZE + segLen data pos ≤ data.length
    · rw [next_step_eq data pos r hr hlen hpl] at h
      simp only [Option.some.injEq, Prod.mk.injEq] at h
      exact ⟨hr, hpl, h.1.symm, h.2.symm⟩
    · exfalso
      by_cases hdr : pos + SEGMENT_HEADER_SIZE ≤ data.length
      · have hw1 : wrap64 (pos + SEGMENT_HEADER_SIZE) = pos + SEGMENT_HEADER_SIZE :=
          wrap64_eq_of_lt (by omega)
        have e1 : pos + SEGMENT_HEADER_SIZE - pos = SEGMENT_HEADER_SIZE := by omega
        have h1 : sliceRange data pos (wrap64 (pos + SEGMENT_HEADER_SIZE)) =
            some (extract data pos SEGMENT_HEADER_SIZE) := by
          rw [hw1, sliceRange_eq_extract data pos (pos + SEGMENT_HEADER_SIZE) (by omega) hdr, e1]
        have hw2 : wrap64 (pos + SEGMENT_HEADER_SIZE + segLen data pos) =
            pos + SEGMENT_HEADER_SIZE + segLen data pos := wrap64_eq_of_lt (by omega)
        have h2 : sliceRange data (wrap64 (pos + SEGMENT_HEADER_SIZE))
            (wrap64 (pos + SEGMENT_HEADER_SIZE + segLen data pos)) = none := by
          rw [hw1, hw2]
          exact sliceRange_eq_none data _ _ (by omega)
        unfold SectionIter.next at h
        simp only [hr, if_pos, h1, decodeSegmentHeader_extract, h2] at h
        exact Option.noConfusion h
      · have hw1 : wrap64 (pos + SEGMENT_HEADER_SIZE) = pos + SEGMENT_HEADER_SIZE :=
          wrap64_eq_of_lt (by omega)
        have h1 : sliceRange data pos (wrap64 (pos + SEGMENT_HEADER_SIZE)) = none := by
          rw [hw1]
          exact sliceRange_eq_none data _ _ (by omega)
        unfold SectionIter.next at h
        simp only [hr, if_pos, h1] at h
        exact Option.noConfusion h
  · unfold SectionIter.next at h
    rw [if_neg hr] at h
    simp at h

/-- Claim C5: the segment stream is strictly forward and single-pass: a
non-panicking advance that yields a segment comes from a state with a
positive remaining count and decrements it by one, and an advance that
yields nothing happens exactly in the exhausted state, leaves the state
unchanged, and therefore every later advance also yields nothing. -/
theorem stream_forward_single_pass (it it2 : SectionIter) (o : Option CodeSegment)
    (h : it.next = some (o, it2)) :
    (o.isSome = true → 0 < it.remaining ∧ it2.remaining + 1 = it.remaining) ∧
      (o = none → it.remaining = 0 ∧ it2 = it ∧ it2.next = some (none, it2)) := by
  obtain ⟨data, pos, r⟩ := it
  by_cases hr : 0 < r
  · unfold SectionIter.next at h
    rw [if_pos hr] at h
    simp only at h
    cases h1 : sliceRange data pos (wrap64 (pos + SEGMENT_HEADER_SIZE)) with
    | none =>
      simp only [h1] at h
      exact Option.noConfusion h
    | some hdrBytes =>
      simp only [h1] at h
      cases h2 : sliceRange data (wrap64 (pos + SEGMENT_HEADER_SIZE))
          (wrap64 (pos + SEGMENT_HEADER_SIZE + (decodeSegmentHeader hdrBytes).length)) with
      | none =>
        simp only [h2] at h
        exact Option.noConfusion h
      | some payload =>
        simp only [h2] at h
        simp only [Option.some.injEq, Prod.mk.injEq] at h
        obtain ⟨ho, hit⟩ := h
        constructor
        · intro _
          refine ⟨hr, ?_⟩
          rw [← hit]
          show r - 1 + 1 = r
          omega
        · intro hno
          rw [← ho] at hno
          exact Option.noConfusion hno
  · unfold SectionIter.next at h
    rw [if_neg hr] at h
    simp only [Option.some.injEq, Prod.mk.injEq] at h
    obtain ⟨ho, hit⟩ := h
    have hr0 : r = 0 := by omega
    constructor
    · intro hs
      rw [← ho] at hs
      simp at hs
    · intro _
      refine ⟨hr0, hit.symm, ?_⟩
      rw [← hit]
      unfold SectionIter.next
      rw [if_neg hr]

/-- Witness for C5: the exhausted stream over the empty buffer advances to
nothing and stays exhausted on every later advance. -/
theorem stream_forward_single_pass_witness :
    SectionIter.next ⟨[], 0, 0⟩ = some (none, (⟨[], 0, 0⟩ : SectionIter)) :=
  ((stream_forward_single_pass ⟨[], 0, 0⟩ ⟨[], 0, 0⟩ none (by decide)).2 rfl).2.2

/-! ### Claim theorems -/

/-- Claim C1: for every well-formed image buffer whose header declares
segment_count = k, segments() creates a stream over the buffer that yields
exactly the k segment records, in the order they appear in the buffer. -/
theorem segments_yield_exact_count (buf : List Nat) (h : WellFormedB buf = true) :
    (EspFirmwareImage.new buf).segments = some ⟨buf, HEADER_SIZE, imageSegCount buf⟩ ∧
      SectionIter.collect ⟨buf, HEADER_SIZE, imageSegCount buf⟩ =
        some (specSegs buf (imageSegCount buf) HEADER_SIZE) ∧
      (specSegs buf (imageSegCount buf) HEADER_SIZE).length = imageSegCount buf := by
  obtain ⟨hh, hlen, hrec⟩ := wellFormedB_inv buf h
  refine ⟨segments_eq_of_header buf hh, ?_, specSegs_length buf _ _⟩
  unfold SectionIter.collect
  rw [show (⟨buf, HEADER_SIZE, imageSegCount buf⟩ : SectionIter).remaining =
    imageSegCount buf from rfl]
  rw [runAll_eq_specSegs buf hlen (imageSegCount buf) HEADER_SIZE hrec]
  rfl

/-- Witness for C1 on the spec's concrete two-segment image. -/
theorem segments_yield_exact_count_witness :
    (EspFirmwareImage.new exampleBuf).segments =
        some ⟨exampleBuf, HEADER_SIZE, imageSegCount exampleBuf⟩ ∧
      SectionIter.collect ⟨exampleBuf, HEADER_SIZE, imageSegCount exampleBuf⟩ =
        some (specSegs exampleBuf (imageSegCount exampleBuf) HEADER_SIZE) ∧
      (specSegs exampleBuf (imageSegCount exampleBuf) HEADER_SIZE).length =
        imageSegCount exampleBuf :=
  segments_yield_exact_count exampleBuf (by decide)

/-- Claim C2 (code-bug evidence): on the empty buffer, which is shorter
than the header, both entry() and segments() hit an out-of-bounds slice —
the Rust code panics (modelled as `none`); it has no truncated-header
error value to return. -/
theorem entry_segments_short_buffer_panic :
    (EspFirmwareImage.new []).entry = none ∧ (EspFirmwareImage.new []).segments = none := by
  decide

/-- Claim C3 (code-bug evidence): on the spec's two-segment example
truncated by its last byte, segments() still starts, the first advance
yields the first segment, and the advance reaching the truncated second
segment hits an out-of-bounds payload slice — a panic (modelled as
`none`), not a truncated-payload error value. -/
theorem truncated_payload_panics :
    (EspFirmwareImage.new exampleBufTrunc).segments =
        some ⟨exampleBufTrunc, HEADER_SIZE, 2⟩ ∧
      SectionIter.next ⟨exampleBufTrunc, HEADER_SIZE, 2⟩ =
        some (some (CodeSegment.new 0x3FFB0000 [1, 2, 3, 4]), ⟨exampleBufTrunc, 36, 1⟩) ∧
      SectionIter.next ⟨exampleBufTrunc, 36, 1⟩ = none := by
  decide

/-- Claim C4: calling segments() twice over the same unchanged buffer
yields equal stream states, and — the streams being pure values whose
advances depend only on their own state — iterating either one produces
the same sequence and cannot affect the other. -/
theorem segments_twice_independent (buf : List Nat) (it1 it2 : SectionIter)
    (h1 : (EspFirmwareImage.new buf).segments = some it1)
    (h2 : (EspFirmwareImage.new buf).segments = some it2) :
    it1 = it2 ∧ SectionIter.collect it1 = SectionIter.collect it2 ∧
      ∀ n, SectionIter.runAll n it1 = SectionIter.runAll n it2 := by
  have he : it1 = it2 := Option.some.inj (h1.symm.trans h2)
  subst he
  exact ⟨rfl, rfl, fun _ => rfl⟩

/-- Witness for C4 on the spec's concrete two-segment image. -/
theorem segments_twice_independent_witness :
    SectionIter.runAll 2 ⟨exampleBuf, HEADER_SIZE, 2⟩ =
      SectionIter.runAll 2 ⟨exampleBuf, HEADER_SIZE, 2⟩ :=
  (segments_twice_independent exampleBuf ⟨exampleBuf, HEADER_SIZE, 2⟩
    ⟨exampleBuf, HEADER_SIZE, 2⟩ (by decide) (by decide)).2.2 2

/-- Claim C6: each advance moves the cursor forward by exactly
SEGMENT_HEADER_SIZE + length bytes, and over a well-formed image the final
cursor equals the header size plus the sum of
(SEGMENT_HEADER_SIZE + length_i) over all yielded segments — consecutive
records neither overlap nor leave gaps. -/
theorem segments_consume_exact_bytes (buf : List Nat) (h : WellFormedB buf = true) :
    (EspFirmwareImage.new buf).segments = some ⟨buf, HEADER_SIZE, imageSegCount buf⟩ ∧
      SectionIter.runAll (imageSegCount buf) ⟨buf, HEADER_SIZE, imageSegCount buf⟩ =
        some (specSegs buf (imageSegCount buf) HEADER_SIZE,
          ⟨buf, endPos buf (imageSegCount buf) HEADER_SIZE, 0⟩) ∧
      endPos buf (imageSegCount buf) HEADER_SIZE =
        HEADER_SIZE + ((specSegs buf (imageSegCount buf) HEADER_SIZE).map
          (fun s => SEGMENT_HEADER_SIZE + s.data.length)).sum ∧
      ∀ (jt jt2 : SectionIter) (seg : CodeSegment),
        jt.data.length < 2 ^ 63 → jt.pos ≤ jt.data.length →
        jt.next = some (some seg, jt2) →
        jt2.pos = jt.pos + SEGMENT_HEADER_SIZE + seg.data.length := by
  obtain ⟨hh, hlen, hrec⟩ := wellFormedB_inv buf h
  refine ⟨segments_eq_of_header buf hh,
    runAll_eq_specSegs buf hlen (imageSegCount buf) HEADER_SIZE hrec,
    endPos_eq_add_sum buf (imageSegCount buf) HEADER_SIZE hrec, ?_⟩
  intro jt jt2 seg hl hp hn
  obtain ⟨_, hb, hseg, hit⟩ := next_some_inv jt seg jt2 hl hp hn
  have hdl : seg.data.length = segLen jt.data jt.pos := by
    rw [hseg]
    exact extract_length jt.data _ _ (by omega)
  rw [hit, hdl]

/-- Witness for C6 on the spec's concrete two-segment image. -/
theorem segments_consume_exact_bytes_witness :
    endPos exampleBuf (imageSegCount exampleBuf) HEADER_SIZE =
      HEADER_SIZE + ((specSegs exampleBuf (imageSegCount exampleBuf) HEADER_SIZE).map
        (fun s => SEGMENT_HEADER_SIZE + s.data.length)).sum :=
  (segments_consume_exact_bytes exampleBuf (by decide)).2.2.1

/-- Claim C7: for a buffer at least as long as the header, entry() is the
little-endian u32 decoded from the 4 bytes at offset 0 of the image, and
it depends only on the header bytes — any buffer with the same first
HEADER_SIZE bytes gives the same entry point. -/
theorem entry_little_endian (buf buf2 : List Nat) (h : HEADER_SIZE ≤ buf.length)
    (h2 : buf2.take HEADER_SIZE = buf.take HEADER_SIZE) :
    (EspFirmwareImage.new buf).entry = some (readU32LE buf 0) ∧
      (EspFirmwareImage.new buf2).entry = (EspFirmwareImage.new buf).entry := by
  have hlen2 : HEADER_SIZE ≤ buf2.length := by
    have hl := congrArg List.length h2
    rw [List.length_take, List.length_take] at hl
    omega
  have hbyte : ∀ i, i < HEADER_SIZE → buf2.getD i 0 = buf.getD i 0 := by
    intro i hi
    rw [← getD_take buf2 HEADER_SIZE i hi, h2, getD_take buf HEADER_SIZE i hi]
  have hread : ∀ (b : List Nat), HEADER_SIZE ≤ b.length →
      (EspFirmwareImage.new b).entry = some (readU32LE b 0) := by
    intro b hb
    unfold EspFirmwareImage.entry EspFirmwareImage.new
    rw [sliceRange_eq_extract b 0 HEADER_SIZE (by omega) hb]
    simp only [Nat.sub_zero]
    unfold decodeImageHeader
    rw [readU32LE_extract b 0 HEADER_SIZE 0 (by norm_num [HEADER_SIZE])]
  refine ⟨hread buf h, ?_⟩
  rw [hread buf2 hlen2, hread buf h]
  have hsame : readU32LE buf2 0 = readU32LE buf 0 := by
    unfold readU32LE
    simp only [Nat.zero_add]
    rw [hbyte 0 (by norm_num [HEADER_SIZE]), hbyte 1 (by norm_num [HEADER_SIZE]),
      hbyte 2 (by norm_num [HEADER_SIZE]), hbyte 3 (by norm_num [HEADER_SIZE])]
  rw [hsame]

/-- Witness for C7: the example image, and the same image with a byte
appended after the segments. -/
theorem entry_little_endian_witness :
    (EspFirmwareImage.new exampleBuf).entry = some (readU32LE exampleBuf 0) ∧
      (EspFirmwareImage.new (exampleBuf ++ [7])).entry =
        (EspFirmwareImage.new exampleBuf).entry :=
  entry_little_endian exampleBuf (exampleBuf ++ [7]) (by decide) (by decide)

/-- Claim C8: the cursor update of SectionIter::next is 64-bit usize
arithmetic, and for any cursor below the slice-size bound it cannot wrap,
even for an adversarially large u32 length field: the modular sum equals
the exact sum. -/
theorem advanceCursor_no_wrap (pos len : Nat) (hp : pos < 2 ^ 63) (hl : len < 2 ^ 32) :
    advanceCursor pos len = pos + len + SEGMENT_HEADER_SIZE := by
  have hpow := pow63_lt_usize_mod
  unfold advanceCursor
  rw [wrap64_eq_of_lt (by omega)]

/-- Witness for C8 with the largest possible u32 length field. -/
theorem advanceCursor_no_wrap_witness :
    advanceCursor 24 4294967295 = 24 + 4294967295 + SEGMENT_HEADER_SIZE :=
  advanceCursor_no_wrap 24 4294967295 (by norm_num) (by norm_num)

/-- Claim C9: every segment a non-panicking advance yields carries exactly
the declared number of payload bytes, and those bytes are precisely the
buffer's bytes starting SEGMENT_HEADER_SIZE past the record's start — a
view of the original buffer. -/
theorem yielded_segment_is_exact_view (it it2 : SectionIter) (seg : CodeSegment)
    (hlen : it.data.length < 2 ^ 63) (hpos : it.pos ≤ it.data.length)
    (h : it.next = some (some seg, it2)) :
    seg.data.length = segLen it.data it.pos ∧
      seg.addr = readU32LE it.data it.pos ∧
      seg.data = extract it.data (it.pos + SEGMENT_HEADER_SIZE) (segLen it.data it.pos) ∧
      ∀ i, i < seg.data.length →
        seg.data.getD i 0 = it.data.getD (it.pos + SEGMENT_HEADER_SIZE + i) 0 := by
  obtain ⟨_, hb, hseg, _⟩ := next_some_inv it seg it2 hlen hpos h
  subst hseg
  simp only [CodeSegment.new] at *
  refine ⟨extract_length it.data _ _ (by omega), by trivial, by trivial, ?_⟩
  intro i hi
  rw [extract_length it.data _ _ (by omega)] at hi
  exact extract_getD it.data (it.pos + SEGMENT_HEADER_SIZE) (segLen it.data it.pos) i hi

/-- Witness for C9: the first advance over the spec's concrete image. -/
theorem yielded_segment_is_exact_view_witness :
    (CodeSegment.new 0x3FFB0000 [1, 2, 3, 4]).data.length =
      segLen exampleBuf HEADER_SIZE :=
  (yielded_segment_is_exact_view ⟨exampleBuf, HEADER_SIZE, 2⟩ ⟨exampleBuf, 36, 1⟩
    (CodeSegment.new 0x3FFB0000 [1, 2, 3, 4]) (by decide) (by decide) (by decide)).1

/-- Claim C10: EspFirmwareImage::new performs no validation and never
fails: for every buffer it simply stores the bytes, and even when the
buffer is too short for the header the failure surfaces only in entry()
or segments(), never at construction. -/
theorem new_total_no_validation (buf : List Nat) :
    EspFirmwareImage.new buf = { image_data := buf } ∧
      (buf.length < HEADER_SIZE →
        (EspFirmwareImage.new buf).entry = none ∧
          (EspFirmwareImage.new buf).segments = none) := by
  refine ⟨rfl, fun hshort => ?_⟩
  have hnone : sliceRange buf 0 HEADER_SIZE = none :=
    sliceRange_eq_none buf 0 HEADER_SIZE (by omega)
  constructor
  · unfold EspFirmwareImage.entry EspFirmwareImage.new
    rw [hnone]
  · unfold EspFirmwareImage.segments EspFirmwareImage.new
    rw [hnone]

/-- Witness for C10 on the empty buffer. -/
theorem new_total_no_validation_witness :
    (EspFirmwareImage.new []).entry = none ∧
      (EspFirmwareImage.new []).segments = none :=
  (new_total_no_validation []).2 (by decide)
